import Mathlib

/-!
Verification of the scheduling / live-dispatch core of the signage server.

The definitions below are a shallow embedding of the JavaScript source:

* `src/database.js` — the legacy (unscoped) schedule repository: SQL
  `hasConflict`, `updateStatus`, `reschedule`, `getPending` filters;
* `src/unnamed/part_006` — the legacy in-memory server: `hasConflict`;
* `src/unnamed/part_005` — the current server: the `register-display` and
  `disconnect` socket handlers, the `POST /api/display-now` route, the
  `POST /api/schedule` / `PUT /api/schedule/:id` conflict gates, and the
  10-second schedule-checker sweep;
* `src/daypartScheduling.js` — `DAYPARTS` and `getCurrentDaypart`;
* `src/liveSessionDb.js` — `endSession`.

Times are modelled as integer milliseconds since the epoch (JavaScript
`Date.getTime()`), ids as naturals, and SQL result sets as lists of rows.
The owner-scoped schedule-repository module called by `part_005`
(`scheduleDb.getPending(userId[, deviceId])`,
`scheduleDb.hasConflict(time, duration, userId, excludeId)`, …) is not part
of the provided sources — only its callers are — so those operations are
modelled from the specification, which is stated in their doc comments.
-/

namespace Signage

/-- Lifecycle status of a schedule row (`schedules.status` column,
`CHECK (status IN ('pending','completed','cancelled'))`). -/
inductive Status where
  | pending
  | completed
  | cancelled
deriving DecidableEq, Repr

/-- Repeat class of a schedule row (`schedules.repeat_type` column,
`CHECK (repeat_type IN ('once','daily','weekly','monthly','yearly'))`). -/
inductive RepeatType where
  | once
  | daily
  | weekly
  | monthly
  | yearly
deriving DecidableEq, Repr

/-- A schedule row, with the fields the scheduling core reads:
id, owner, optional target device, scheduled instant (ms), duration (ms),
repeat class, status.  Content fields are collapsed into `imageUrl`. -/
structure ScheduleEntry where
  id : Nat
  userId : Nat
  deviceId : Option Nat
  scheduledTime : Int
  duration : Int
  repeatType : RepeatType
  status : Status
  imageUrl : String
deriving DecidableEq, Repr

/-- Half-open window overlap `[t1, t1+d1) ∩ [t2, t2+d2) ≠ ∅`:
each window starts strictly before the other ends. -/
def overlapB (t1 d1 t2 d2 : Int) : Bool :=
  decide (t1 < t2 + d2) && decide (t2 < t1 + d1)

/-- JavaScript `duration || 60000`: a falsy (0) duration defaults to 60000 ms
(`src/unnamed/part_006`, lines 36 and 46). -/
def orDefaultDuration (d : Int) : Int :=
  if d = 0 then 60000 else d

/-- The in-memory conflict check of the legacy server
(`src/unnamed/part_006`, lines 35–52): scan `existingSchedules`; skip the
entry named by `excludeId` and every non-`pending` entry; report a conflict
when `newStart < existingEnd && newEnd > existingStart`. -/
def hasConflictMem (newTime newDur : Int) (existing : List ScheduleEntry)
    (excludeId : Option Nat) : Bool :=
  let newEnd := newTime + orDefaultDuration newDur
  existing.any fun s =>
    if excludeId = some s.id then false
    else if s.status ≠ Status.pending then false
    else
      let e := s.scheduledTime + orDefaultDuration s.duration
      decide (newTime < e) && decide (newEnd > s.scheduledTime)

/-- The three-disjunct row predicate of the SQL conflict check
(`src/database.js`, lines 99–103), over a candidate window `[t, e)` and a
row's `scheduled_time` `s` with duration `d`:
`(s <= t AND s+d > t) OR (s < e AND s+d >= e) OR (s >= t AND s < e)`. -/
def sqlOverlapRow (t e s d : Int) : Bool :=
  (decide (s ≤ t) && decide (s + d > t)) ||
  (decide (s < e) && decide (s + d ≥ e)) ||
  (decide (s ≥ t) && decide (s < e))

/-- The SQL conflict check of the legacy schedule repository
(`src/database.js`, lines 93–107, `scheduleDb.hasConflict`): the candidate
end is `scheduledTime + duration`; rows are kept when `status = 'pending'`,
`excludeId IS NULL OR id != excludeId`, and the three-disjunct predicate
holds; the result is whether any row survived. -/
def hasConflictSql (scheduledTime duration : Int) (rows : List ScheduleEntry)
    (excludeId : Option Nat) : Bool :=
  let endTime := scheduledTime + duration
  rows.any fun s =>
    s.status = Status.pending &&
    (match excludeId with
     | none => true
     | some i => s.id ≠ i) &&
    sqlOverlapRow scheduledTime endTime s.scheduledTime s.duration

/-- A concrete pending one-shot entry at instant `t` (ms) with duration `d`,
used for boundary examples. -/
def entryAt (t d : Int) : ScheduleEntry :=
  ⟨1, 7, none, t, d, RepeatType.once, Status.pending, "img"⟩

theorem orDefaultDuration_of_pos {d : Int} (hd : 0 < d) :
    orDefaultDuration d = d := by
  unfold orDefaultDuration
  rw [if_neg (by omega)]

theorem sqlOverlapRow_iff {t d s sd : Int} (hd : 0 < d) (hsd : 0 < sd) :
    sqlOverlapRow t (t + d) s sd = true ↔ (t < s + sd ∧ s < t + d) := by
  simp only [sqlOverlapRow, Bool.or_eq_true, Bool.and_eq_true, decide_eq_true_eq]
  omega

theorem hasConflictMem_iff (t d : Int) (rows : List ScheduleEntry)
    (excl : Option Nat) (hrows : ∀ s ∈ rows, 0 < s.duration) (hd : 0 < d) :
    hasConflictMem t d rows excl = true ↔
      ∃ s ∈ rows, excl ≠ some s.id ∧ s.status = Status.pending ∧
        t < s.scheduledTime + s.duration ∧ s.scheduledTime < t + d := by
  unfold hasConflictMem
  rw [List.any_eq_true]
  constructor
  · rintro ⟨s, hs, hf⟩
    refine ⟨s, hs, ?_⟩
    rw [orDefaultDuration_of_pos hd] at hf
    by_cases hex : excl = some s.id
    · rw [if_pos hex] at hf; exact absurd hf (by simp)
    rw [if_neg hex] at hf
    by_cases hp : s.status = Status.pending
    · rw [if_neg (by simp [hp])] at hf
      rw [orDefaultDuration_of_pos (hrows s hs)] at hf
      simp only [Bool.and_eq_true, decide_eq_true_eq] at hf
      exact ⟨hex, hp, hf.1, by omega⟩
    · rw [if_pos (by simp [hp])] at hf; exact absurd hf (by simp)
  · rintro ⟨s, hs, hex, hp, h1, h2⟩
    refine ⟨s, hs, ?_⟩
    rw [orDefaultDuration_of_pos hd, if_neg hex, if_neg (by simp [hp]),
      orDefaultDuration_of_pos (hrows s hs)]
    simp only [Bool.and_eq_true, decide_eq_true_eq]
    exact ⟨h1, by omega⟩

theorem hasConflictSql_iff (t d : Int) (rows : List ScheduleEntry)
    (excl : Option Nat) (hrows : ∀ s ∈ rows, 0 < s.duration) (hd : 0 < d) :
    hasConflictSql t d rows excl = true ↔
      ∃ s ∈ rows, excl ≠ some s.id ∧ s.status = Status.pending ∧
        t < s.scheduledTime + s.duration ∧ s.scheduledTime < t + d := by
  unfold hasConflictSql
  rw [List.any_eq_true]
  refine exists_congr fun s => and_congr_right fun hs => ?_
  simp only [Bool.and_eq_true, decide_eq_true_eq]
  constructor
  · rintro ⟨⟨hp, hex⟩, hrow⟩
    have hex' : excl ≠ some s.id := by
      cases excl with
      | none => simp
      | some i =>
        simp only [decide_eq_true_eq] at hex
        simp only [ne_eq, Option.some.injEq]
        omega
    exact ⟨hex', hp, ((sqlOverlapRow_iff hd (hrows s hs)).mp hrow).1,
      ((sqlOverlapRow_iff hd (hrows s hs)).mp hrow).2⟩
  · rintro ⟨hex, hp, h1, h2⟩
    refine ⟨⟨hp, ?_⟩, (sqlOverlapRow_iff hd (hrows s hs)).mpr ⟨h1, h2⟩⟩
    cases excl with
    | none => simp
    | some i =>
      simp only [ne_eq, Option.some.injEq] at hex
      simp only [decide_eq_true_eq]
      omega

/-- **C3.** Both conflict checks — the in-memory one of
`src/unnamed/part_006` (lines 35–52) and the SQL one of `src/database.js`
(lines 93–107) — implement half-open interval overlap: with positive
durations, a conflict is reported exactly when some non-excluded `pending`
row's window and the candidate window each start strictly before the other
ends.  In particular (taking 10:00:00 as instant 0, in ms), the candidate
[10:00:00, 10:00:30) does NOT conflict with an existing pending
[10:00:30, 10:01:00), while [10:00:00, 10:00:31) DOES. -/
theorem conflict_check_is_half_open_overlap :
    (∀ (t d : Int) (rows : List ScheduleEntry) (excl : Option Nat),
      (∀ s ∈ rows, 0 < s.duration) → 0 < d →
      (hasConflictMem t d rows excl = true ↔
        ∃ s ∈ rows, excl ≠ some s.id ∧ s.status = Status.pending ∧
          t < s.scheduledTime + s.duration ∧ s.scheduledTime < t + d) ∧
      (hasConflictSql t d rows excl = true ↔
        ∃ s ∈ rows, excl ≠ some s.id ∧ s.status = Status.pending ∧
          t < s.scheduledTime + s.duration ∧ s.scheduledTime < t + d)) ∧
    hasConflictMem 0 30000 [entryAt 30000 30000] none = false ∧
    hasConflictSql 0 30000 [entryAt 30000 30000] none = false ∧
    hasConflictMem 0 31000 [entryAt 30000 30000] none = true ∧
    hasConflictSql 0 31000 [entryAt 30000 30000] none = true := by
  refine ⟨fun t d rows excl hrows hd =>
    ⟨hasConflictMem_iff t d rows excl hrows hd,
     hasConflictSql_iff t d rows excl hrows hd⟩, ?_, ?_, ?_, ?_⟩ <;> decide

/-- Witness for **C3**: the general equivalence applied to the concrete
boundary store — the candidate [0, 31000) conflicts with the pending window
[30000, 60000) because each starts strictly before the other ends. -/
theorem conflict_check_is_half_open_overlap_witness :
    hasConflictMem 0 31000 [entryAt 30000 30000] none = true :=
  ((conflict_check_is_half_open_overlap.1 0 31000 [entryAt 30000 30000] none
    (by decide) (by decide)).1).mpr
    ⟨entryAt 30000 30000, by simp [entryAt], by decide, by decide,
      by decide, by decide⟩

/-- Modelled from the spec: the owner-scoped Conflict Resolver called by the
current server (`src/unnamed/part_005` calls
`scheduleDb.hasConflict(scheduledTime, duration, userId, excludeId)`; the
owner-scoped schedule-repository module itself is not among the provided
sources).  Spec §4.2: "hasConflict(candidateInstant, candidateDuration,
owner, excludeId?) → boolean.  Computes candidate window
[instant, instant+duration).  Overlap test against every other `pending`
entry for the same owner … standard half-open interval overlap …
excludeId lets an in-place update ignore its own prior window." -/
def hasConflict (store : List ScheduleEntry) (t d : Int) (owner : Nat)
    (excludeId : Option Nat) : Bool :=
  store.any fun s =>
    s.status = Status.pending && s.userId = owner &&
    (match excludeId with
     | none => true
     | some i => s.id ≠ i) &&
    overlapB t d s.scheduledTime s.duration

theorem hasConflict_iff (store : List ScheduleEntry) (t d : Int)
    (owner : Nat) (excl : Option Nat) :
    hasConflict store t d owner excl = true ↔
      ∃ s ∈ store, s.status = Status.pending ∧ s.userId = owner ∧
        excl ≠ some s.id ∧
        overlapB t d s.scheduledTime s.duration = true := by
  unfold hasConflict
  rw [List.any_eq_true]
  refine exists_congr fun s => and_congr_right fun _ => ?_
  simp only [Bool.and_eq_true, decide_eq_true_eq]
  constructor
  · rintro ⟨⟨⟨hp, ho⟩, hex⟩, hov⟩
    refine ⟨hp, ho, ?_, hov⟩
    cases excl with
    | none => simp
    | some i =>
      simp only [decide_eq_true_eq] at hex
      simp only [ne_eq, Option.some.injEq]
      omega
  · rintro ⟨hp, ho, hex, hov⟩
    refine ⟨⟨⟨hp, ho⟩, ?_⟩, hov⟩
    cases excl with
    | none => simp
    | some i =>
      simp only [ne_eq, Option.some.injEq] at hex
      simp only [decide_eq_true_eq]
      omega

/-- **C2.** The owner-scoped conflict check reports a conflict exactly when
some `pending` entry of the same owner, other than the entry named by
`excludeId`, overlaps the candidate window (first conjunct); consequently an
entry that is not `pending`, or belongs to a different owner, or is the
entry being updated in place (its id equals `excludeId`), never influences
the result (second conjunct). -/
theorem hasConflict_scope_and_exclude :
    (∀ (store : List ScheduleEntry) (t d : Int) (owner : Nat)
        (excl : Option Nat),
      hasConflict store t d owner excl = true ↔
        ∃ s ∈ store, s.status = Status.pending ∧ s.userId = owner ∧
          excl ≠ some s.id ∧
          overlapB t d s.scheduledTime s.duration = true) ∧
    (∀ (store : List ScheduleEntry) (t d : Int) (owner : Nat)
        (excl : Option Nat) (e : ScheduleEntry),
      (e.status ≠ Status.pending ∨ e.userId ≠ owner ∨ excl = some e.id) →
      hasConflict (e :: store) t d owner excl =
        hasConflict store t d owner excl) := by
  refine ⟨hasConflict_iff, fun store t d owner excl e he => ?_⟩
  unfold hasConflict
  rw [List.any_cons]
  rcases he with hp | ho | hex
  · simp [hp]
  · simp [ho]
  · subst hex; simp

/-- Witness for **C2**: on a store holding one pending entry of owner 7 at
window [30000, 60000), the characterization yields a conflict for candidate
[0, 31000) when no id is excluded, and the insensitivity part shows that
excluding that entry's id makes the check ignore it. -/
theorem hasConflict_scope_and_exclude_witness :
    hasConflict [entryAt 30000 30000] 0 31000 7 none = true ∧
    hasConflict [entryAt 30000 30000] 0 31000 7 (some 1) =
      hasConflict [] 0 31000 7 (some 1) :=
  ⟨(hasConflict_scope_and_exclude.1 [entryAt 30000 30000] 0 31000 7
      none).mpr
    ⟨entryAt 30000 30000, by simp [entryAt], by decide, by decide,
      by decide, by decide⟩,
   hasConflict_scope_and_exclude.2 [] 0 31000 7 (some 1)
     (entryAt 30000 30000) (Or.inr (Or.inr rfl))⟩

/-- The schedule store: its rows plus the next id the `SERIAL PRIMARY KEY`
column will hand out. -/
structure ScheduleStore where
  entries : List ScheduleEntry
  nextId : Nat
deriving Repr

/-- One conflict-gated mutation of the schedule store, as issued by the
current server: `create` is `POST /api/schedule`'s single-device path
(`src/unnamed/part_005`, lines 2666–2674: reject when
`scheduleDb.hasConflict(scheduledTime, duration, userId)`), `update` is
`PUT /api/schedule/:id` (lines 2763–2777: when a new time or duration is
supplied, reject when
`scheduleDb.hasConflict(scheduledTime, duration, userId, id)`). -/
inductive Op where
  | create (owner : Nat) (deviceId : Option Nat) (t d : Int)
      (rpt : RepeatType) (url : String)
  | update (id owner : Nat) (newTime newDur : Option Int)

/-- The per-row effect of an update that merges non-null fields
(spec §4.1: "update(id, owner, partialFields) → merges non-null fields,
fails silently (returns not-found) if id/owner mismatch"). -/
def updEntry (id owner : Nat) (t d : Int) (e : ScheduleEntry) :
    ScheduleEntry :=
  if e.id = id && e.userId = owner then
    { e with scheduledTime := t, duration := d }
  else e

/-- Modelled from the spec: applying one conflict-gated operation.  The
owner-scoped repository operations called here (`scheduleDb.create`,
`scheduleDb.update`) are not among the provided sources; per spec §4.1 a
create persists a `pending` entry with a fresh id and an update merges the
non-null timing fields into the row matching id and owner.  A request the
conflict gate rejects (HTTP 409 in `src/unnamed/part_005`) leaves the store
unchanged. -/
def applyOp (st : ScheduleStore) (op : Op) : ScheduleStore :=
  match op with
  | Op.create owner dev t d rpt url =>
      if hasConflict st.entries t d owner none then st
      else
        ⟨⟨st.nextId, owner, dev, t, d, rpt, Status.pending, url⟩ ::
          st.entries, st.nextId + 1⟩
  | Op.update id owner newTime newDur =>
      match st.entries.find? (fun s => s.id = id && s.userId = owner) with
      | none => st
      | some s =>
        let t := newTime.getD s.scheduledTime
        let d := newDur.getD s.duration
        if (newTime.isSome || newDur.isSome) &&
            hasConflict st.entries t d owner (some id) then st
        else ⟨st.entries.map (updEntry id owner t d), st.nextId⟩

/-- No two distinct `pending` entries of the same owner have overlapping
half-open windows. -/
def Nonoverlapping (l : List ScheduleEntry) : Prop :=
  ∀ e1 ∈ l, ∀ e2 ∈ l, e1.id ≠ e2.id → e1.status = Status.pending →
    e2.status = Status.pending → e1.userId = e2.userId →
    overlapB e1.scheduledTime e1.duration e2.scheduledTime e2.duration =
      false

/-- Store well-formedness: ids are below the id counter, ids are distinct
(the `SERIAL PRIMARY KEY`), and pending windows do not overlap per owner. -/
def Wf (st : ScheduleStore) : Prop :=
  (∀ e ∈ st.entries, e.id < st.nextId) ∧
  (st.entries.map ScheduleEntry.id).Nodup ∧
  Nonoverlapping st.entries

theorem overlapB_comm (t1 d1 t2 d2 : Int) :
    overlapB t1 d1 t2 d2 = overlapB t2 d2 t1 d1 := by
  unfold overlapB
  exact Bool.and_comm _ _

theorem updEntry_id (id owner : Nat) (t d : Int) (e : ScheduleEntry) :
    (updEntry id owner t d e).id = e.id := by
  unfold updEntry; split <;> rfl

theorem updEntry_userId (id owner : Nat) (t d : Int) (e : ScheduleEntry) :
    (updEntry id owner t d e).userId = e.userId := by
  unfold updEntry; split <;> rfl

theorem updEntry_status (id owner : Nat) (t d : Int) (e : ScheduleEntry) :
    (updEntry id owner t d e).status = e.status := by
  unfold updEntry; split <;> rfl

/-- When the candidate window does not conflict (per the owner-scoped
check), consing the new pending entry preserves the invariant. -/
theorem nonoverlapping_create (l : List ScheduleEntry) (n : ScheduleEntry)
    (hno : Nonoverlapping l)
    (hc : hasConflict l n.scheduledTime n.duration n.userId none = false) :
    Nonoverlapping (n :: l) := by
  have hnc : ∀ e ∈ l, e.status = Status.pending → e.userId = n.userId →
      overlapB n.scheduledTime n.duration e.scheduledTime e.duration =
        false := by
    intro e he hp ho
    by_contra hov
    rw [Bool.not_eq_false] at hov
    have : hasConflict l n.scheduledTime n.duration n.userId none = true :=
      (hasConflict_iff _ _ _ _ _).mpr ⟨e, he, hp, ho, by simp, hov⟩
    rw [hc] at this
    exact Bool.false_ne_true this
  intro e1 he1 e2 he2 hid h1 h2 ho
  rcases List.mem_cons.mp he1 with h1e | h1e <;>
    rcases List.mem_cons.mp he2 with h2e | h2e
  · rw [h1e, h2e] at hid
    exact absurd rfl hid
  · rw [h1e]
    rw [h1e] at ho
    exact hnc e2 h2e h2 ho.symm
  · rw [h2e, overlapB_comm]
    rw [h2e] at ho
    exact hnc e1 h1e h1 ho
  · exact hno e1 h1e e2 h2e hid h1 h2 ho

/-- When the merged window of an in-place update does not conflict with any
other pending entry of the owner, rewriting the row preserves the
invariant. -/
theorem nonoverlapping_update (l : List ScheduleEntry) (id owner : Nat)
    (t d : Int) (s : ScheduleEntry) (hs : s ∈ l) (hsid : s.id = id)
    (hnodup : (l.map ScheduleEntry.id).Nodup)
    (hno : Nonoverlapping l)
    (hok : ∀ b ∈ l, b.status = Status.pending → b.userId = owner →
      b.id ≠ id → s.status = Status.pending →
      overlapB t d b.scheduledTime b.duration = false) :
    Nonoverlapping (l.map (updEntry id owner t d)) := by
  have hinj := List.inj_on_of_nodup_map hnodup
  intro e1 he1 e2 he2 hid h1 h2 ho
  rcases List.mem_map.mp he1 with ⟨a, ha, rfl⟩
  rcases List.mem_map.mp he2 with ⟨b, hb, rfl⟩
  rw [updEntry_id id owner t d a, updEntry_id id owner t d b] at hid
  rw [updEntry_status] at h1
  rw [updEntry_status] at h2
  rw [updEntry_userId id owner t d a, updEntry_userId id owner t d b] at ho
  by_cases hamod : (a.id = id && a.userId = owner) = true <;>
    by_cases hbmod : (b.id = id && b.userId = owner) = true
  · simp only [Bool.and_eq_true, decide_eq_true_eq] at hamod hbmod
    exact absurd (hamod.1.trans hbmod.1.symm) hid
  · simp only [Bool.and_eq_true, decide_eq_true_eq] at hamod
    have ha' : a = s := hinj ha hs (hamod.1.trans hsid.symm)
    rw [updEntry, if_pos (by simp [hamod.1, hamod.2]),
      updEntry, if_neg hbmod]
    subst ha'
    exact hok b hb h2 (hamod.2 ▸ ho.symm)
      (fun hbid => hid (hamod.1.trans hbid.symm)) h1
  · simp only [Bool.and_eq_true, decide_eq_true_eq] at hbmod
    have hb' : b = s := hinj hb hs (hbmod.1.trans hsid.symm)
    rw [updEntry, if_neg hamod, updEntry,
      if_pos (by simp [hbmod.1, hbmod.2])]
    subst hb'
    rw [overlapB_comm]
    exact hok a ha h1 (hbmod.2 ▸ ho)
      (fun haid => hid (haid.trans hbmod.1.symm)) h2
  · rw [updEntry, if_neg hamod, updEntry, if_neg hbmod]
    exact hno a ha b hb hid h1 h2 ho

theorem wf_applyOp (st : ScheduleStore) (op : Op) (hwf : Wf st) :
    Wf (applyOp st op) := by
  obtain ⟨hlt, hnodup, hno⟩ := hwf
  cases op with
  | create owner dev t d rpt url =>
    simp only [applyOp]
    split
    · exact ⟨hlt, hnodup, hno⟩
    next hc =>
      rw [Bool.not_eq_true] at hc
      refine ⟨?_, ?_, ?_⟩
      · intro e he
        rcases List.mem_cons.mp he with he | he
        · rw [he]; exact Nat.lt_succ_self _
        · exact Nat.lt_succ_of_lt (hlt e he)
      · rw [List.map_cons, List.nodup_cons]
        refine ⟨fun hmem => ?_, hnodup⟩
        rcases List.mem_map.mp hmem with ⟨e, he, hide⟩
        exact absurd (hide ▸ hlt e he) (Nat.lt_irrefl _)
      · exact nonoverlapping_create st.entries _ hno hc
  | update id owner newTime newDur =>
    simp only [applyOp]
    split
    · exact ⟨hlt, hnodup, hno⟩
    next s hfind =>
      have hsmem : s ∈ st.entries := List.mem_of_find?_eq_some hfind
      have hsprop := List.find?_some hfind
      simp only [Bool.and_eq_true, decide_eq_true_eq] at hsprop
      split
      · exact ⟨hlt, hnodup, hno⟩
      next hgate =>
        refine ⟨?_, ?_, ?_⟩
        · intro e he
          rcases List.mem_map.mp he with ⟨a, ha, rfl⟩
          rw [updEntry_id]
          exact hlt a ha
        · rw [List.map_map]
          have : (fun e => (updEntry id owner (newTime.getD s.scheduledTime)
              (newDur.getD s.duration) e).id) =
              (fun e : ScheduleEntry => e.id) := by
            funext e
            exact updEntry_id _ _ _ _ e
          rw [Function.comp_def, this]
          exact hnodup
        · refine nonoverlapping_update st.entries id owner _ _ s hsmem
            hsprop.1 hnodup hno ?_
          by_cases hcf : hasConflict st.entries
              (newTime.getD s.scheduledTime) (newDur.getD s.duration)
              owner (some id) = true
          · have hTD : (newTime.isSome || newDur.isSome) = false := by
              by_contra hS
              rw [Bool.not_eq_false] at hS
              refine hgate ?_
              rw [hS, hcf]
              rfl
            have hT : newTime = none := by
              cases newTime with
              | none => rfl
              | some v => simp at hTD
            have hD : newDur = none := by
              cases newDur with
              | none => rfl
              | some v => simp at hTD
            intro b hb hbp hbo hbid hsp
            rw [hT, hD]
            exact hno s hsmem b hb (by rw [hsprop.1]; omega) hsp hbp
              (by rw [hsprop.2, hbo])
          · rw [Bool.not_eq_true] at hcf
            intro b hb hbp hbo hbid _
            by_contra hov
            rw [Bool.not_eq_false] at hov
            have : hasConflict st.entries (newTime.getD s.scheduledTime)
                (newDur.getD s.duration) owner (some id) = true :=
              (hasConflict_iff _ _ _ _ _).mpr
                ⟨b, hb, hbp, hbo,
                 by simp only [ne_eq, Option.some.injEq]; omega, hov⟩
            rw [hcf] at this
            exact Bool.false_ne_true this

/-- **C1.** Starting from any well-formed store, after any sequence of
create / update operations — each of which passed the owner-scoped conflict
check, rejected requests leaving the store unchanged — no two distinct
`pending` entries of the same owner have overlapping
[instant, instant+duration) windows. -/
theorem pending_windows_never_overlap (st : ScheduleStore) (ops : List Op)
    (hwf : Wf st) :
    Nonoverlapping (ops.foldl applyOp st).entries := by
  induction ops generalizing st with
  | nil => exact hwf.2.2
  | cons op ops ih =>
    rw [List.foldl_cons]
    exact ih (applyOp st op) (wf_applyOp st op hwf)

/-- Witness for **C1**: starting from the empty store and creating two
back-to-back windows [0, 30000) and [30000, 60000) for owner 7, the
resulting pending entries are non-overlapping; concretely, the two stored
windows do not overlap. -/
theorem pending_windows_never_overlap_witness :
    Nonoverlapping
      (([Op.create 7 none 0 30000 RepeatType.once "a",
         Op.create 7 none 30000 30000 RepeatType.once "b"].foldl applyOp
        ⟨[], 0⟩).entries) :=
  pending_windows_never_overlap ⟨[], 0⟩ _
    ⟨fun e he => absurd he (List.not_mem_nil e), List.nodup_nil,
     fun e1 he1 => absurd he1 (List.not_mem_nil e1)⟩

/-! ### Daypart engine (`src/daypartScheduling.js`) -/

/-- The four named windows of the `DAYPARTS` table plus the `UNKNOWN`
fallback of `getCurrentDaypart` (`src/daypartScheduling.js`, lines 5–10 and
30). -/
inductive DaypartType where
  | BREAKFAST
  | LUNCH
  | DINNER
  | LATE_NIGHT
  | UNKNOWN
deriving DecidableEq, Repr, Fintype

/-- A wall-clock "HH:MM" boundary as minutes since midnight.  The source
compares zero-padded "HH:MM" strings lexicographically, which on valid
times coincides with comparing minutes since midnight. -/
def hhmm (h m : Nat) : Nat := 60 * h + m

/-- Whether minute-of-day `time` matches a window, per the source's
comparisons (`src/daypartScheduling.js`, lines 17–27): the `LATE_NIGHT`
window (22:00–06:00) wraps midnight and is matched by
`time >= start || time < end`; the other three use
`start <= time && time < end`. -/
def daypartMatches (w : DaypartType) (time : Nat) : Bool :=
  match w with
  | DaypartType.BREAKFAST => decide (hhmm 6 0 ≤ time) && decide (time < hhmm 11 0)
  | DaypartType.LUNCH => decide (hhmm 11 0 ≤ time) && decide (time < hhmm 16 0)
  | DaypartType.DINNER => decide (hhmm 16 0 ≤ time) && decide (time < hhmm 22 0)
  | DaypartType.LATE_NIGHT => decide (hhmm 22 0 ≤ time) || decide (time < hhmm 6 0)
  | DaypartType.UNKNOWN => false

/-- `getCurrentDaypart` (`src/daypartScheduling.js`, lines 13–31): scan the
`DAYPARTS` entries in insertion order (BREAKFAST, LUNCH, DINNER,
LATE_NIGHT), returning the first window the current wall-clock time
matches, and `UNKNOWN` when none does. -/
def getCurrentDaypart (time : Nat) : DaypartType :=
  if daypartMatches DaypartType.BREAKFAST time then DaypartType.BREAKFAST
  else if daypartMatches DaypartType.LUNCH time then DaypartType.LUNCH
  else if daypartMatches DaypartType.DINNER time then DaypartType.DINNER
  else if daypartMatches DaypartType.LATE_NIGHT time then
    DaypartType.LATE_NIGHT
  else DaypartType.UNKNOWN

/-- **C8.** For every wall-clock minute of day, `getCurrentDaypart` returns
one of the four fixed windows and never the `UNKNOWN` fallback; the
returned window matches the time, and it is the only one of the four
windows that does — so the windows cover the full 24-hour clock with no
gaps and no overlaps. -/
theorem getCurrentDaypart_total_and_unique :
    ∀ time : Nat, time < 1440 →
      getCurrentDaypart time ≠ DaypartType.UNKNOWN ∧
      daypartMatches (getCurrentDaypart time) time = true ∧
      ∀ w : DaypartType, daypartMatches w time = true →
        w = getCurrentDaypart time := by
  intro time ht
  have hcases :
      getCurrentDaypart time = DaypartType.BREAKFAST ∧
        360 ≤ time ∧ time < 660 ∨
      getCurrentDaypart time = DaypartType.LUNCH ∧
        660 ≤ time ∧ time < 960 ∨
      getCurrentDaypart time = DaypartType.DINNER ∧
        960 ≤ time ∧ time < 1320 ∨
      getCurrentDaypart time = DaypartType.LATE_NIGHT ∧
        (1320 ≤ time ∨ time < 360) := by
    unfold getCurrentDaypart daypartMatches hhmm
    split_ifs with h1 h2 h3 h4
    · simp only [Bool.and_eq_true, decide_eq_true_eq] at h1
      exact Or.inl ⟨rfl, by omega⟩
    · simp only [Bool.and_eq_true, decide_eq_true_eq] at h2
      exact Or.inr (Or.inl ⟨rfl, by omega⟩)
    · simp only [Bool.and_eq_true, decide_eq_true_eq] at h3
      exact Or.inr (Or.inr (Or.inl ⟨rfl, by omega⟩))
    · simp only [Bool.or_eq_true, decide_eq_true_eq] at h4
      exact Or.inr (Or.inr (Or.inr ⟨rfl, by omega⟩))
    · simp only [Bool.and_eq_true, Bool.or_eq_true, decide_eq_true_eq,
        not_and, not_or, not_lt, not_le] at h1 h2 h3 h4
      omega
  rcases hcases with ⟨hv, hr⟩ | ⟨hv, hr⟩ | ⟨hv, hr⟩ | ⟨hv, hr⟩
  · rw [hv]
    refine ⟨by decide, ?_, ?_⟩
    · simp only [daypartMatches, hhmm, Bool.and_eq_true, decide_eq_true_eq]
      omega
    · intro w hw
      cases w <;> simp only [daypartMatches, hhmm, Bool.and_eq_true,
        Bool.or_eq_true, Bool.false_eq_true, decide_eq_true_eq] at hw <;>
        first | rfl | (exfalso; omega)
  · rw [hv]
    refine ⟨by decide, ?_, ?_⟩
    · simp only [daypartMatches, hhmm, Bool.and_eq_true, decide_eq_true_eq]
      omega
    · intro w hw
      cases w <;> simp only [daypartMatches, hhmm, Bool.and_eq_true,
        Bool.or_eq_true, Bool.false_eq_true, decide_eq_true_eq] at hw <;>
        first | rfl | (exfalso; omega)
  · rw [hv]
    refine ⟨by decide, ?_, ?_⟩
    · simp only [daypartMatches, hhmm, Bool.and_eq_true, decide_eq_true_eq]
      omega
    · intro w hw
      cases w <;> simp only [daypartMatches, hhmm, Bool.and_eq_true,
        Bool.or_eq_true, Bool.false_eq_true, decide_eq_true_eq] at hw <;>
        first | rfl | (exfalso; omega)
  · rw [hv]
    refine ⟨by decide, ?_, ?_⟩
    · simp only [daypartMatches, hhmm, Bool.or_eq_true, decide_eq_true_eq]
      omega
    · intro w hw
      cases w <;> simp only [daypartMatches, hhmm, Bool.and_eq_true,
        Bool.or_eq_true, Bool.false_eq_true, decide_eq_true_eq] at hw <;>
        first | rfl | (exfalso; omega)

/-- Witness for **C8**: at 23:30 (minute 1410) the late-night window is the
daypart, it matches, and it is the unique match. -/
theorem getCurrentDaypart_total_and_unique_witness :
    getCurrentDaypart 1410 ≠ DaypartType.UNKNOWN ∧
    daypartMatches (getCurrentDaypart 1410) 1410 = true ∧
    ∀ w : DaypartType, daypartMatches w 1410 = true →
      w = getCurrentDaypart 1410 :=
  getCurrentDaypart_total_and_unique 1410 (by decide)

/-! ### Schedule repository mutations and the sweep's repeat bookkeeping -/

/-- `scheduleDb.updateStatus` (`src/database.js`, lines 72–76):
`UPDATE schedules SET status = $1 WHERE id = $2`. -/
def updateStatus (l : List ScheduleEntry) (id : Nat) (st : Status) :
    List ScheduleEntry :=
  l.map fun e => if e.id = id then { e with status := st } else e

/-- `scheduleDb.reschedule` (`src/database.js`, lines 79–83):
`UPDATE schedules SET scheduled_time = $1, status = 'pending' WHERE id = $3`. -/
def reschedule (l : List ScheduleEntry) (id : Nat) (newTime : Int) :
    List ScheduleEntry :=
  l.map fun e =>
    if e.id = id then
      { e with scheduledTime := newTime, status := Status.pending }
    else e

/-- Insertion step of the time-ordered read (`ORDER BY scheduled_time ASC`). -/
def insertByTime (e : ScheduleEntry) : List ScheduleEntry →
    List ScheduleEntry
  | [] => [e]
  | x :: xs =>
    if e.scheduledTime ≤ x.scheduledTime then e :: x :: xs
    else x :: insertByTime e xs

/-- Stable sort by scheduled instant (`ORDER BY scheduled_time ASC`). -/
def sortByTime (l : List ScheduleEntry) : List ScheduleEntry :=
  l.foldr insertByTime []

/-- Modelled from the spec: the owner-scoped
`scheduleDb.getPending(userId)` called by the sweep in
`src/unnamed/part_005` (line 3273); the module is not among the provided
sources.  Spec §4.1: "getPending(owner[, deviceId]) → all `pending` entries
whose scheduled instant is ≤ now", as an ordered-by-time list. -/
def getPending (l : List ScheduleEntry) (now : Int) (owner : Nat) :
    List ScheduleEntry :=
  sortByTime (l.filter fun e =>
    e.status = Status.pending && e.userId = owner &&
    decide (e.scheduledTime ≤ now))

/-- Modelled from the spec: the device-scoped
`scheduleDb.getPending(userId, deviceId)` called by the `register-display`
replay (`src/unnamed/part_005`, line 1613); spec §4.1's optional
`deviceId` scoping. -/
def getPendingForDevice (l : List ScheduleEntry) (now : Int) (owner : Nat)
    (did : Nat) : List ScheduleEntry :=
  sortByTime (l.filter fun e =>
    e.status = Status.pending && e.userId = owner &&
    e.deviceId = some did && decide (e.scheduledTime ≤ now))

theorem mem_insertByTime (a e : ScheduleEntry) (l : List ScheduleEntry) :
    a ∈ insertByTime e l ↔ a = e ∨ a ∈ l := by
  induction l with
  | nil => simp [insertByTime]
  | cons x xs ih =>
    unfold insertByTime
    split
    · simp [List.mem_cons]
    · simp only [List.mem_cons, ih]
      tauto

theorem mem_sortByTime (a : ScheduleEntry) (l : List ScheduleEntry) :
    a ∈ sortByTime l ↔ a ∈ l := by
  induction l with
  | nil => simp [sortByTime]
  | cons x xs ih =>
    unfold sortByTime at ih ⊢
    rw [List.foldr_cons, mem_insertByTime, ih, List.mem_cons]

theorem mem_getPending (e : ScheduleEntry) (l : List ScheduleEntry)
    (now : Int) (owner : Nat) :
    e ∈ getPending l now owner ↔
      e ∈ l ∧ e.status = Status.pending ∧ e.userId = owner ∧
        e.scheduledTime ≤ now := by
  unfold getPending
  rw [mem_sortByTime, List.mem_filter]
  simp only [Bool.and_eq_true, decide_eq_true_eq]
  tauto

theorem mem_getPendingForDevice (e : ScheduleEntry)
    (l : List ScheduleEntry) (now : Int) (owner did : Nat) :
    e ∈ getPendingForDevice l now owner did ↔
      e ∈ l ∧ e.status = Status.pending ∧ e.userId = owner ∧
        e.deviceId = some did ∧ e.scheduledTime ≤ now := by
  unfold getPendingForDevice
  rw [mem_sortByTime, List.mem_filter]
  simp only [Bool.and_eq_true, decide_eq_true_eq]
  tauto

/-- The fixed repeat offsets of the sweep's `switch (schedule.repeat_type)`
(`src/unnamed/part_005`, lines 3318–3331), in milliseconds. -/
def repeatOffset : RepeatType → Option Int
  | RepeatType.once => none
  | RepeatType.daily => some (24 * 60 * 60 * 1000)
  | RepeatType.weekly => some (7 * 24 * 60 * 60 * 1000)
  | RepeatType.monthly => some (30 * 24 * 60 * 60 * 1000)
  | RepeatType.yearly => some (365 * 24 * 60 * 60 * 1000)

/-- The sweep's repeat bookkeeping for one fired entry
(`src/unnamed/part_005`, lines 3311–3337): `once` →
`updateStatus(id, 'completed')`; otherwise compute
`nextTime = scheduled_time + offset` and `reschedule(id, nextTime)`
(which forces status back to `pending`). -/
def fireRepeat (l : List ScheduleEntry) (sch : ScheduleEntry) :
    List ScheduleEntry :=
  if sch.repeatType = RepeatType.once then
    updateStatus l sch.id Status.completed
  else
    match repeatOffset sch.repeatType with
    | some off => reschedule l sch.id (sch.scheduledTime + off)
    | none => l

/-- **C5.** When the sweep fires a due entry: a `once` entry is marked
`completed` and no entry with its id ever appears in a later `getPending`
result; a `daily`/`weekly`/`monthly`/`yearly` entry remains `pending` with
its scheduled instant advanced by exactly 24 h / 7 d / 30 d / 365 d in
milliseconds (fixed offsets, not calendar arithmetic). -/
theorem sweep_repeat_bookkeeping (l : List ScheduleEntry)
    (sch : ScheduleEntry) (hmem : sch ∈ l) :
    (sch.repeatType = RepeatType.once →
      (∀ e ∈ fireRepeat l sch, e.id = sch.id →
        e.status = Status.completed) ∧
      ∀ (later : Int) (owner : Nat), ∀ e ∈ getPending (fireRepeat l sch)
        later owner, e.id ≠ sch.id) ∧
    (sch.repeatType = RepeatType.daily →
      { sch with
        scheduledTime := sch.scheduledTime + 86400000
        status := Status.pending } ∈ fireRepeat l sch) ∧
    (sch.repeatType = RepeatType.weekly →
      { sch with
        scheduledTime := sch.scheduledTime + 604800000
        status := Status.pending } ∈ fireRepeat l sch) ∧
    (sch.repeatType = RepeatType.monthly →
      { sch with
        scheduledTime := sch.scheduledTime + 2592000000
        status := Status.pending } ∈ fireRepeat l sch) ∧
    (sch.repeatType = RepeatType.yearly →
      { sch with
        scheduledTime := sch.scheduledTime + 31536000000
        status := Status.pending } ∈ fireRepeat l sch) := by
  have hresched : ∀ off : Int,
      { sch with
        scheduledTime := sch.scheduledTime + off
        status := Status.pending } ∈
        reschedule l sch.id (sch.scheduledTime + off) := by
    intro off
    unfold reschedule
    refine List.mem_map.mpr ⟨sch, hmem, ?_⟩
    simp
  refine ⟨?_, ?_, ?_, ?_, ?_⟩
  · intro honce
    have hfire : fireRepeat l sch = updateStatus l sch.id Status.completed := by
      unfold fireRepeat
      rw [if_pos honce]
    constructor
    · intro e he hid
      rw [hfire] at he
      unfold updateStatus at he
      rcases List.mem_map.mp he with ⟨a, _, rfl⟩
      by_cases ha : a.id = sch.id
      · rw [if_pos ha]
      · rw [if_neg ha] at hid ⊢
        exact absurd hid ha
    · intro later owner e he
      rw [hfire] at he
      rw [mem_getPending] at he
      obtain ⟨hel, hep, _, _⟩ := he
      unfold updateStatus at hel
      rcases List.mem_map.mp hel with ⟨a, _, rfl⟩
      by_cases ha : a.id = sch.id
      · rw [if_pos ha] at hep
        exact absurd hep (by simp)
      · rw [if_neg ha]
        exact ha
  · intro hrt
    have hfire : fireRepeat l sch =
        reschedule l sch.id (sch.scheduledTime + 86400000) := by
      unfold fireRepeat
      rw [if_neg (by rw [hrt]; simp), hrt]
      rfl
    rw [hfire]
    exact hresched 86400000
  · intro hrt
    have hfire : fireRepeat l sch =
        reschedule l sch.id (sch.scheduledTime + 604800000) := by
      unfold fireRepeat
      rw [if_neg (by rw [hrt]; simp), hrt]
      rfl
    rw [hfire]
    exact hresched 604800000
  · intro hrt
    have hfire : fireRepeat l sch =
        reschedule l sch.id (sch.scheduledTime + 2592000000) := by
      unfold fireRepeat
      rw [if_neg (by rw [hrt]; simp), hrt]
      rfl
    rw [hfire]
    exact hresched 2592000000
  · intro hrt
    have hfire : fireRepeat l sch =
        reschedule l sch.id (sch.scheduledTime + 31536000000) := by
      unfold fireRepeat
      rw [if_neg (by rw [hrt]; simp), hrt]
      rfl
    rw [hfire]
    exact hresched 31536000000

/-- Witness for **C5**: firing a daily entry due at instant 1000 leaves a
pending entry at instant 1000 + 86400000 in the store. -/
theorem sweep_repeat_bookkeeping_witness :
    { entryAt 1000 30000 with
      repeatType := RepeatType.daily
      scheduledTime := (1000 : Int) + 86400000
      status := Status.pending } ∈
      fireRepeat [{ entryAt 1000 30000 with
        repeatType := RepeatType.daily }]
        { entryAt 1000 30000 with repeatType := RepeatType.daily } :=
  ((sweep_repeat_bookkeeping
      [{ entryAt 1000 30000 with repeatType := RepeatType.daily }]
      { entryAt 1000 30000 with repeatType := RepeatType.daily }
      (by simp)).2.1) rfl

/-! ### Connection registry and the periodic sweep -/

/-- A Connection Registry value (`connectedDisplays.set(serialNumber, {...})`,
`src/unnamed/part_005`, lines 1554–1561): transport session id, owning
user, internal device id, display name, timezone. -/
structure DisplayInfo where
  socketId : Nat
  userId : Nat
  deviceId : Nat
  displayName : String
  timezone : String
deriving DecidableEq, Repr

/-- The in-memory `connectedDisplays` map (`src/unnamed/part_005`,
line 112), keyed by device serial, modelled as an insertion-ordered
association list. -/
abbrev Registry := List (String × DisplayInfo)

/-- Keep-first deduplication with an accumulator of already-seen values:
the order in which a JavaScript `Set` built from a list iterates. -/
def dedupFirstAux (seen : List Nat) : List Nat → List Nat
  | [] => []
  | x :: xs =>
    if x ∈ seen then dedupFirstAux seen xs
    else x :: dedupFirstAux (x :: seen) xs

/-- `new Set(list)` in iteration order: first occurrences, in order. -/
def dedupFirst (l : List Nat) : List Nat :=
  dedupFirstAux [] l

/-- The owner ids one sweep pass iterates over
(`src/unnamed/part_005`, lines 3267–3272:
`new Set(Array.from(connectedDisplays.values()).map(d => d.userId))`). -/
def ownersOf (registry : Registry) : List Nat :=
  dedupFirst (registry.map fun p => p.2.userId)

theorem mem_dedupFirstAux (l : List Nat) :
    ∀ (seen : List Nat) (a : Nat),
      a ∈ dedupFirstAux seen l ↔ a ∈ l ∧ a ∉ seen := by
  induction l with
  | nil => intro seen a; simp [dedupFirstAux]
  | cons x xs ih =>
    intro seen a
    unfold dedupFirstAux
    by_cases hx : x ∈ seen
    · rw [if_pos hx, ih seen a, List.mem_cons]
      by_cases hax : a = x
      · subst hax; tauto
      · tauto
    · rw [if_neg hx, List.mem_cons, ih (x :: seen) a, List.mem_cons,
        List.mem_cons]
      by_cases hax : a = x
      · subst hax; tauto
      · tauto

theorem nodup_dedupFirstAux (l : List Nat) :
    ∀ seen : List Nat, (dedupFirstAux seen l).Nodup := by
  induction l with
  | nil => intro seen; simp [dedupFirstAux]
  | cons x xs ih =>
    intro seen
    unfold dedupFirstAux
    by_cases hx : x ∈ seen
    · rw [if_pos hx]; exact ih seen
    · rw [if_neg hx]
      refine List.nodup_cons.mpr ⟨fun hmem => ?_, ih (x :: seen)⟩
      exact absurd ((mem_dedupFirstAux xs (x :: seen) x).mp hmem).2
        (by simp)

theorem mem_ownersOf (registry : Registry) (u : Nat) :
    u ∈ ownersOf registry ↔ ∃ p ∈ registry, p.2.userId = u := by
  unfold ownersOf dedupFirst
  rw [mem_dedupFirstAux]
  simp [List.mem_map]

/-- One content push the sweep performs: the target registry entry and the
schedule row it delivers. -/
structure Push where
  serial : String
  info : DisplayInfo
  sched : ScheduleEntry
deriving DecidableEq, Repr

/-- The per-schedule fan-out of the sweep (`src/unnamed/part_005`, lines
3287–3293): `io.to(...).emit('display-content', ...)` for every registry
entry whose `userId` equals the owner being processed. -/
def pushesFor (registry : Registry) (u : Nat) (sch : ScheduleEntry) :
    List Push :=
  (registry.filter fun p => p.2.userId = u).map fun p => ⟨p.1, p.2, sch⟩

/-- Processing one owner inside the sweep (`src/unnamed/part_005`, lines
3272–3340): fetch the owner's due pending entries once, then for each —
push to every display of that owner and apply the repeat bookkeeping to
the store. -/
def sweepOwner (registry : Registry) (now : Int)
    (st : List ScheduleEntry × List Push) (u : Nat) :
    List ScheduleEntry × List Push :=
  (getPending st.1 now u).foldl
    (fun acc sch => (fireRepeat acc.1 sch, acc.2 ++ pushesFor registry u sch))
    st

/-- One pass of the 10-second schedule checker (`src/unnamed/part_005`,
lines 3262–3342): iterate the distinct owner ids of the registry,
processing each owner in turn against the evolving store; returns the
final store and every push performed. -/
def sweep (registry : Registry) (store : List ScheduleEntry) (now : Int) :
    List ScheduleEntry × List Push :=
  (ownersOf registry).foldl (sweepOwner registry now) (store, [])

theorem foldl_snd_preserve {A S : Type} (P : Push → Prop)
    (proj : S → List Push) (f : S → A → S) :
    ∀ (l : List A) (st0 : S),
      (∀ st a, a ∈ l → ∀ x ∈ proj (f st a), x ∈ proj st ∨ P x) →
      ∀ x ∈ proj (l.foldl f st0), x ∈ proj st0 ∨ P x := by
  intro l
  induction l with
  | nil =>
    intro st0 _ x hx
    exact Or.inl hx
  | cons a as ih =>
    intro st0 hstep x hx
    rw [List.foldl_cons] at hx
    rcases ih (f st0 a)
        (fun st b hb => hstep st b (List.mem_cons_of_mem a hb)) x hx with
      h | h
    · exact hstep st0 a (List.mem_cons_self a as) x h
    · exact Or.inr h

theorem sweepOwner_pushes (registry : Registry) (now : Int)
    (st : List ScheduleEntry × List Push) (u : Nat) :
    ∀ x ∈ (sweepOwner registry now st u).2, x ∈ st.2 ∨
      ((x.serial, x.info) ∈ registry ∧ x.info.userId = x.sched.userId ∧
        x.sched.status = Status.pending ∧ x.sched.scheduledTime ≤ now) := by
  refine foldl_snd_preserve _ Prod.snd _ (getPending st.1 now u) st ?_
  intro acc sch hsch x hx
  rcases List.mem_append.mp hx with h | h
  · exact Or.inl h
  · right
    unfold pushesFor at h
    rcases List.mem_map.mp h with ⟨p, hp, rfl⟩
    have hpf := List.mem_filter.mp hp
    have hpu : p.2.userId = u := by
      have := hpf.2
      simpa using this
    have hsch' := (mem_getPending sch st.1 now u).mp hsch
    exact ⟨hpf.1, by rw [hpu, hsch'.2.2.1], hsch'.2.1, hsch'.2.2.2⟩

/-- **C4.** A sweep pass iterates over exactly the distinct owner ids
present in the Connection Registry (they are pairwise distinct and are
precisely the owners of registry entries), and every push it performs
pairs a connected display with a schedule entry of the same owner that was
`pending` and due — so each owner's fetch yields only that owner's due
pending entries, and the resulting messages go only to that owner's
displays. -/
theorem sweep_owner_scoped (registry : Registry) (store : List ScheduleEntry)
    (now : Int) :
    (ownersOf registry).Nodup ∧
    (∀ u : Nat, u ∈ ownersOf registry ↔ ∃ p ∈ registry, p.2.userId = u) ∧
    ∀ x ∈ (sweep registry store now).2,
      (x.serial, x.info) ∈ registry ∧ x.info.userId = x.sched.userId ∧
      x.sched.status = Status.pending ∧ x.sched.scheduledTime ≤ now := by
  refine ⟨nodup_dedupFirstAux _ [], fun u => mem_ownersOf registry u, ?_⟩
  intro x hx
  have := foldl_snd_preserve
    (fun x => (x.serial, x.info) ∈ registry ∧
      x.info.userId = x.sched.userId ∧
      x.sched.status = Status.pending ∧ x.sched.scheduledTime ≤ now)
    Prod.snd (sweepOwner registry now) (ownersOf registry) (store, [])
    (fun st u _ => sweepOwner_pushes registry now st u) x hx
  rcases this with h | h
  · exact absurd h (List.not_mem_nil x)
  · exact h

/-- Witness for **C4**: a registry with one display of owner 7 and a store
with one due pending entry of owner 7 — the sweep's single push targets
registry entry `("SN1", …)` and carries that owner's entry. -/
theorem sweep_owner_scoped_witness :
    (("SN1", (⟨11, 7, 5, "D", "UTC"⟩ : DisplayInfo)) ∈
        ([("SN1", ⟨11, 7, 5, "D", "UTC"⟩)] : Registry)) ∧
      (7 : Nat) = (entryAt 0 60000).userId ∧
      (entryAt 0 60000).status = Status.pending ∧
      (entryAt 0 60000).scheduledTime ≤ (0 : Int) := by
  have h := (sweep_owner_scoped [("SN1", ⟨11, 7, 5, "D", "UTC"⟩)]
      [entryAt 0 60000] 0).2.2
      ⟨"SN1", ⟨11, 7, 5, "D", "UTC"⟩, entryAt 0 60000⟩ (by decide)
  exact ⟨h.1, h.2.1, h.2.2.1, h.2.2.2⟩

/-! ### Device pairing, `register-display`, and registry supersession -/

/-- A `displays` table row as read by `devicePairing.getDeviceBySerial`
(`src/devicePairing.js`, lines 126–135) and the `register-display` handler
(`src/unnamed/part_005`, lines 1535–1546). -/
structure Device where
  id : Nat
  serialNumber : String
  userId : Option Nat
  isPaired : Bool
  deviceName : String
  deviceTimezone : String
deriving DecidableEq, Repr

/-- `SELECT * FROM displays WHERE serial_number = $1` returning the first
row (`src/devicePairing.js`, lines 126–135). -/
def getDeviceBySerial (devices : List Device) (serial : String) :
    Option Device :=
  devices.find? fun d => d.serialNumber = serial

/-- JavaScript `Map.set`: overwrite in place when the key is present
(keeping its insertion position), append otherwise. -/
def mapSet (m : Registry) (k : String) (v : DisplayInfo) : Registry :=
  if m.any fun p => p.1 = k then
    m.map fun p => if p.1 = k then (k, v) else p
  else m ++ [(k, v)]

/-- The reverse scan of the `disconnect` handler
(`src/unnamed/part_005`, lines 1635–1647): find the registry entry whose
stored transport session id matches. -/
def lookupBySession (m : Registry) (socketId : Nat) :
    Option (String × DisplayInfo) :=
  m.find? fun p => p.2.socketId = socketId

/-- A `layouts` table row as read by the `register-display` handler's
active-layout query (`src/unnamed/part_005`, lines 1568–1573). -/
structure Layout where
  id : Nat
  deviceId : Nat
  userId : Nat
  isActive : Bool
  name : String
deriving DecidableEq, Repr

/-- What the handler pushes to the fresh transport session on
registration: the active multi-zone layout, or an image/video content
message built from a pending schedule entry. -/
inductive RegEmit where
  | layout (layoutId : Nat)
  | content (scheduleId : Nat)
deriving DecidableEq, Repr

/-- JavaScript `a || b || c` over strings (empty string is falsy). -/
def firstNonEmpty (a b c : String) : String :=
  if a = "" then (if b = "" then c else b) else a

/-- The `register-display` socket handler (`src/unnamed/part_005`, lines
1524–1633): reject a missing serial, an unknown serial
(`getDeviceBySerial` finds nothing), or an unpaired device
(`!device.is_paired || !device.user_id`) — leaving the registry untouched
and emitting nothing.  Otherwise upsert the registry entry for the serial,
then immediately push the device's active layout if one exists, else the
first entry of `scheduleDb.getPending(user_id, device.id)` if any. -/
def registerDisplay (devices : List Device) (layouts : List Layout)
    (store : List ScheduleEntry) (now : Int) (registry : Registry)
    (serial : String) (socketId : Nat) (tz nm : String) :
    Registry × Option RegEmit :=
  if serial = "" then (registry, none)
  else
    match getDeviceBySerial devices serial with
    | none => (registry, none)
    | some dev =>
      match dev.userId with
      | none => (registry, none)
      | some uid =>
        if dev.isPaired then
          let registry' := mapSet registry serial
            ⟨socketId, uid, dev.id, firstNonEmpty dev.deviceName nm "Display",
              firstNonEmpty tz dev.deviceTimezone "UTC"⟩
          match layouts.find? fun l =>
              l.deviceId = dev.id && l.userId = uid && l.isActive with
          | some l => (registry', some (RegEmit.layout l.id))
          | none =>
            match getPendingForDevice store now uid dev.id with
            | [] => (registry', none)
            | sch :: _ => (registry', some (RegEmit.content sch.id))
        else (registry, none)

/-- In the paired path the registry effect of `registerDisplay` is exactly
the `Map.set` upsert, whatever is replayed afterwards. -/
theorem registerDisplay_registry (devices : List Device)
    (layouts : List Layout) (store : List ScheduleEntry) (now : Int)
    (registry : Registry) (serial : String) (socketId : Nat)
    (tz nm : String) (d : Device) (uid : Nat)
    (hserial : serial ≠ "")
    (hdev : getDeviceBySerial devices serial = some d)
    (huid : d.userId = some uid) (hpaired : d.isPaired = true) :
    (registerDisplay devices layouts store now registry serial socketId
      tz nm).1 =
      mapSet registry serial
        ⟨socketId, uid, d.id, firstNonEmpty d.deviceName nm "Display",
          firstNonEmpty tz d.deviceTimezone "UTC"⟩ := by
  unfold registerDisplay
  rw [if_neg hserial, hdev]
  simp only [huid, hpaired, if_true]
  split
  · rfl
  · split <;> rfl

theorem mapSet_keys_nodup (m : Registry) (k : String) (v : DisplayInfo)
    (hnd : (m.map Prod.fst).Nodup) :
    ((mapSet m k v).map Prod.fst).Nodup := by
  unfold mapSet
  split
  · have : (m.map fun p => if p.1 = k then (k, v) else p).map Prod.fst =
        m.map Prod.fst := by
      rw [List.map_map]
      refine List.map_congr_left fun p _ => ?_
      by_cases hp : p.1 = k
      · simp [hp]
      · simp [hp]
    rw [this]
    exact hnd
  next hany =>
    rw [List.map_append, List.nodup_append]
    refine ⟨hnd, List.nodup_singleton k, fun a ha hb => ?_⟩
    simp only [List.map_cons, List.map_nil, List.mem_singleton] at hb
    subst hb
    rcases List.mem_map.mp ha with ⟨p, hp, hpk⟩
    exact hany (List.any_eq_true.mpr ⟨p, hp, by simp [hpk]⟩)

theorem mem_mapSet (m : Registry) (k : String) (v : DisplayInfo)
    (p : String × DisplayInfo) (hp : p ∈ mapSet m k v) :
    p = (k, v) ∨ (p ∈ m ∧ p.1 ≠ k) := by
  unfold mapSet at hp
  split at hp
  next hany =>
    rcases List.mem_map.mp hp with ⟨q, hq, hfq⟩
    by_cases hqk : q.1 = k
    · rw [if_pos hqk] at hfq
      exact Or.inl hfq.symm
    · rw [if_neg hqk] at hfq
      exact Or.inr ⟨hfq ▸ hq, hfq ▸ hqk⟩
  next hany =>
    rcases List.mem_append.mp hp with h | h
    · refine Or.inr ⟨h, fun hpk => ?_⟩
      exact hany (List.any_eq_true.mpr ⟨p, h, by simp [hpk]⟩)
    · simp only [List.mem_singleton] at h
      exact Or.inl h

theorem filter_mapSet (m : Registry) (k : String) (v : DisplayInfo)
    (hnd : (m.map Prod.fst).Nodup) :
    (mapSet m k v).filter (fun p => p.1 = k) = [(k, v)] := by
  unfold mapSet
  split
  next hany =>
    induction m with
    | nil => simp at hany
    | cons q rest ih =>
      rw [List.map_cons, List.nodup_cons] at hnd
      by_cases hqk : q.1 = k
      · rw [List.map_cons, if_pos hqk, List.filter_cons,
          if_pos (by simp)]
        have hrest : (rest.map fun p => if p.1 = k then (k, v) else p).filter
            (fun p => p.1 = k) = [] := by
          refine List.filter_eq_nil_iff.mpr fun a ha => ?_
          rcases List.mem_map.mp ha with ⟨r, hr, hfr⟩
          by_cases hrk : r.1 = k
          · exact absurd (List.mem_map.mpr ⟨r, hr, hrk.trans hqk.symm⟩)
              hnd.1
          · rw [if_neg hrk] at hfr
            simp [← hfr, hrk]
        rw [hrest]
      · rw [List.map_cons, if_neg hqk, List.filter_cons,
          if_neg (by simp [hqk])]
        have hany' : rest.any (fun p => p.1 = k) = true := by
          rcases List.any_eq_true.mp hany with ⟨r, hr, hrk⟩
          rcases List.mem_cons.mp hr with hrq | hrrest
          · rw [hrq] at hrk
            simp only [decide_eq_true_eq] at hrk
            exact absurd hrk hqk
          · exact List.any_eq_true.mpr ⟨r, hrrest, hrk⟩
        exact ih hnd.2 hany'
  next hany =>
    have hnil : m.filter (fun p => p.1 = k) = [] := by
      refine List.filter_eq_nil_iff.mpr fun a ha hak => ?_
      exact hany (List.any_eq_true.mpr ⟨a, ha, hak⟩)
    rw [List.filter_append, hnil, List.nil_append, List.filter_cons,
      if_pos (by simp), List.filter_nil]

/-- **C7.** The Connection Registry keeps at most one live entry per
serial: upserting preserves key distinctness, and after registering a
paired device's serial twice (a reconnect, sessions `s1` then `s2`), the
entries for that serial are exactly one entry pointing at the second
session `s2`, and the superseded session id `s1` no longer resolves to any
entry via the disconnect handler's reverse scan. -/
theorem registry_single_entry_per_serial
    (devices : List Device) (layouts : List Layout)
    (store : List ScheduleEntry) (now : Int) (registry : Registry)
    (serial : String) (s1 s2 : Nat) (tz nm : String) (d : Device)
    (uid : Nat)
    (hnd : (registry.map Prod.fst).Nodup)
    (hserial : serial ≠ "")
    (hdev : getDeviceBySerial devices serial = some d)
    (huid : d.userId = some uid) (hpaired : d.isPaired = true)
    (hs1 : ∀ p ∈ registry, p.2.socketId ≠ s1) (hne : s1 ≠ s2) :
    (∀ (m : Registry) (k : String) (v : DisplayInfo),
      (m.map Prod.fst).Nodup → ((mapSet m k v).map Prod.fst).Nodup) ∧
    ((registerDisplay devices layouts store now
        (registerDisplay devices layouts store now registry serial s1
          tz nm).1 serial s2 tz nm).1.filter (fun p => p.1 = serial)) =
      [(serial, ⟨s2, uid, d.id, firstNonEmpty d.deviceName nm "Display",
        firstNonEmpty tz d.deviceTimezone "UTC"⟩)] ∧
    lookupBySession (registerDisplay devices layouts store now
        (registerDisplay devices layouts store now registry serial s1
          tz nm).1 serial s2 tz nm).1 s1 = none := by
  have h1 := registerDisplay_registry devices layouts store now registry
    serial s1 tz nm d uid hserial hdev huid hpaired
  have h2 := registerDisplay_registry devices layouts store now
    (registerDisplay devices layouts store now registry serial s1 tz nm).1
    serial s2 tz nm d uid hserial hdev huid hpaired
  have hnd1 : ((registerDisplay devices layouts store now registry serial
      s1 tz nm).1.map Prod.fst).Nodup := by
    rw [h1]
    exact mapSet_keys_nodup registry serial _ hnd
  refine ⟨fun m k v h => mapSet_keys_nodup m k v h, ?_, ?_⟩
  · rw [h2]
    exact filter_mapSet _ serial _ hnd1
  · rw [h2, h1]
    refine List.find?_eq_none.mpr fun p hp => ?_
    have hmem2 := mem_mapSet _ serial _ p hp
    rcases hmem2 with hpv | ⟨hp1, hpk⟩
    · rw [hpv]
      simp only [decide_eq_true_eq]
      omega
    · have hmem1 := mem_mapSet registry serial _ p hp1
      rcases hmem1 with hpv | ⟨hp0, _⟩
      · exact absurd (by rw [hpv]) hpk
      · simp only [decide_eq_true_eq]
        exact hs1 p hp0

/-- Witness for **C7**: a fresh registry, a paired device with serial
"SN1", registered with session 1 then session 2 — exactly one entry for
"SN1" pointing at session 2 remains, and session 1 no longer resolves. -/
theorem registry_single_entry_per_serial_witness :
    ((registerDisplay [⟨5, "SN1", some 7, true, "D", "UTC"⟩] [] [] 0
        (registerDisplay [⟨5, "SN1", some 7, true, "D", "UTC"⟩] [] [] 0
          [] "SN1" 1 "" "").1 "SN1" 2 "" "").1.filter
      (fun p => p.1 = "SN1")) =
      [("SN1", ⟨2, 7, 5, "D", "UTC"⟩)] :=
  (registry_single_entry_per_serial
    [⟨5, "SN1", some 7, true, "D", "UTC"⟩] [] [] 0 [] "SN1" 1 2 "" ""
    ⟨5, "SN1", some 7, true, "D", "UTC"⟩ 7
    List.nodup_nil (by decide) (by decide) rfl rfl
    (fun p hp => absurd hp (List.not_mem_nil p)) (by decide)).2.1

/-- **C10.** On live-registration: an unknown serial, or a device that is
unpaired or has no owner, receives nothing and no registry entry is
created; a paired device is upserted into the registry and is immediately
pushed its active multi-zone layout when one exists, otherwise the first
entry of its owner-and-device-scoped due pending schedules when there is
one — and that entry is indeed a due `pending` entry of that owner and
device. -/
theorem register_replays_immediately (devices : List Device)
    (layouts : List Layout) (store : List ScheduleEntry) (now : Int)
    (registry : Registry) (serial : String) (sid : Nat) (tz nm : String) :
    (getDeviceBySerial devices serial = none →
      registerDisplay devices layouts store now registry serial sid tz nm =
        (registry, none)) ∧
    (∀ d : Device, getDeviceBySerial devices serial = some d →
      (d.isPaired = false ∨ d.userId = none) →
      registerDisplay devices layouts store now registry serial sid tz nm =
        (registry, none)) ∧
    (∀ (d : Device) (uid : Nat) (l : Layout), serial ≠ "" →
      getDeviceBySerial devices serial = some d → d.userId = some uid →
      d.isPaired = true →
      layouts.find? (fun l => l.deviceId = d.id && l.userId = uid &&
        l.isActive) = some l →
      registerDisplay devices layouts store now registry serial sid tz nm =
        (mapSet registry serial
          ⟨sid, uid, d.id, firstNonEmpty d.deviceName nm "Display",
            firstNonEmpty tz d.deviceTimezone "UTC"⟩,
         some (RegEmit.layout l.id))) ∧
    (∀ (d : Device) (uid : Nat) (sch : ScheduleEntry)
        (rest : List ScheduleEntry), serial ≠ "" →
      getDeviceBySerial devices serial = some d → d.userId = some uid →
      d.isPaired = true →
      layouts.find? (fun l => l.deviceId = d.id && l.userId = uid &&
        l.isActive) = none →
      getPendingForDevice store now uid d.id = sch :: rest →
      registerDisplay devices layouts store now registry serial sid tz nm =
        (mapSet registry serial
          ⟨sid, uid, d.id, firstNonEmpty d.deviceName nm "Display",
            firstNonEmpty tz d.deviceTimezone "UTC"⟩,
         some (RegEmit.content sch.id)) ∧
      sch ∈ store ∧ sch.status = Status.pending ∧ sch.userId = uid ∧
      sch.deviceId = some d.id ∧ sch.scheduledTime ≤ now) := by
  refine ⟨?_, ?_, ?_, ?_⟩
  · intro hnone
    unfold registerDisplay
    by_cases hs : serial = ""
    · rw [if_pos hs]
    · rw [if_neg hs, hnone]
  · intro d hdev hbad
    unfold registerDisplay
    by_cases hs : serial = ""
    · rw [if_pos hs]
    · rw [if_neg hs, hdev]
      rcases hbad with hp | hu
      · cases hud : d.userId with
        | none => simp [hud]
        | some uid => simp [hud, hp]
      · simp [hu]
  · intro d uid l hserial hdev huid hpaired hfind
    unfold registerDisplay
    rw [if_neg hserial, hdev]
    simp only [huid, hpaired, if_true]
    rw [hfind]
  · intro d uid sch rest hserial hdev huid hpaired hfind hpend
    have hmem : sch ∈ getPendingForDevice store now uid d.id := by
      rw [hpend]
      exact List.mem_cons_self sch rest
    have hprops := (mem_getPendingForDevice sch store now uid d.id).mp hmem
    refine ⟨?_, hprops.1, hprops.2.1, hprops.2.2.1, hprops.2.2.2.1,
      hprops.2.2.2.2⟩
    unfold registerDisplay
    rw [if_neg hserial, hdev]
    simp only [huid, hpaired, if_true]
    rw [hfind, hpend]

/-- Witness for **C10**: a paired device "SN1" of owner 7 with no active
layout and one due pending entry for it — registration upserts the
registry and immediately replays that entry. -/
theorem register_replays_immediately_witness :
    registerDisplay [⟨5, "SN1", some 7, true, "D", "UTC"⟩] []
      [⟨1, 7, some 5, 0, 60000, RepeatType.once, Status.pending, "img"⟩]
      0 [] "SN1" 3 "" "" =
      (mapSet [] "SN1" ⟨3, 7, 5, "D", "UTC"⟩,
        some (RegEmit.content 1)) :=
  ((register_replays_immediately [⟨5, "SN1", some 7, true, "D", "UTC"⟩] []
      [⟨1, 7, some 5, 0, 60000, RepeatType.once, Status.pending, "img"⟩]
      0 [] "SN1" 3 "" "").2.2.2
    ⟨5, "SN1", some 7, true, "D", "UTC"⟩ 7
    ⟨1, 7, some 5, 0, 60000, RepeatType.once, Status.pending, "img"⟩ []
    (by decide) (by decide) rfl rfl (by decide) (by decide)).1

/-! ### Immediate display (`POST /api/display-now`) -/

/-- The target of an immediate-display request
(`src/unnamed/part_005`, lines 2428–2474): a selection group's device-id
list, a specific device, or (legacy) all of the owner's connected
displays. -/
inductive Target where
  | group (deviceIds : List Nat)
  | device (deviceId : Nat)
  | allOwned
deriving DecidableEq, Repr

/-- Resolving the request's target against the Connection Registry
(`src/unnamed/part_005`, lines 2441–2473): for each branch, keep the
registry entries with matching owner (and matching device id when
targeted); each kept entry receives one `display-content` emit and counts
toward `displaysSent`. -/
def resolveTargets (registry : Registry) (userId : Nat) :
    Target → List (String × DisplayInfo)
  | Target.group devs =>
    (devs.map fun did => registry.filter fun p =>
      p.2.userId = userId && p.2.deviceId = did).flatten
  | Target.device did =>
    registry.filter fun p => p.2.userId = userId && p.2.deviceId = did
  | Target.allOwned =>
    registry.filter fun p => p.2.userId = userId

/-- A `display_history` audit row (`displayDb.create`,
`src/database.js`, lines 133–143). -/
structure HistRow where
  imageUrl : String
  displayedAt : Int
  duration : Int
deriving DecidableEq, Repr

/-- Modelled from the spec: the owner-scoped `scheduleDb.create`
(`src/unnamed/part_005` passes `userId`, `deviceId`, … — the module is not
among the provided sources); spec §4.1: "create(entry) → persisted pending
entry", with the id drawn from the `SERIAL` counter. -/
def dbCreate (st : ScheduleStore) (owner : Nat) (dev : Option Nat)
    (t d : Int) (rpt : RepeatType) (url : String) : ScheduleStore :=
  ⟨⟨st.nextId, owner, dev, t, d, rpt, Status.pending, url⟩ :: st.entries,
    st.nextId + 1⟩

/-- The display-now bookkeeping pair
(`src/unnamed/part_005`, lines 2499–2547): `scheduleDb.create(...)`
followed by `scheduleDb.updateStatus(schedule.id, 'completed')`. -/
def createCompleted (st : ScheduleStore) (owner : Nat) (dev : Option Nat)
    (t d : Int) (url : String) : ScheduleStore :=
  let st' := dbCreate st owner dev t d RepeatType.once url
  ⟨updateStatus st'.entries st.nextId Status.completed, st'.nextId⟩

/-- `POST /api/display-now` (`src/unnamed/part_005`, lines 2384–2553):
resolve the target to connected displays (each resolved display is
emitted to and counted); when `displaysSent === 0`, answer
`404 No displays connected` before any history or schedule write;
otherwise append one display-history row and write the completed one-shot
schedule bookkeeping (one row per group device, or a single row).
Returns (emitted displays, history, schedule store, success flag). -/
def displayNow (registry : Registry) (hist : List HistRow)
    (store : ScheduleStore) (userId : Nat) (tgt : Target) (url : String)
    (now dur : Int) :
    List (String × DisplayInfo) × List HistRow × ScheduleStore × Bool :=
  let displayDuration := orDefaultDuration dur
  let resolved := resolveTargets registry userId tgt
  if resolved.length = 0 then ([], hist, store, false)
  else
    let hist' := hist ++ [⟨url, now, displayDuration⟩]
    let store' :=
      match tgt with
      | Target.group devs => devs.foldl
          (fun acc did =>
            createCompleted acc userId (some did) now displayDuration url)
          store
      | Target.device did =>
        createCompleted store userId (some did) now displayDuration url
      | Target.allOwned =>
        createCompleted store userId none now displayDuration url
    (resolved, hist', store', true)

/-- **C6.** An immediate-display request fails exactly when its target
resolves to zero connected displays, and a failed request performs zero
emits, writes zero display-history rows and zero schedule rows — the
returned history and schedule store are the unchanged inputs. -/
theorem display_now_requires_connected_display (registry : Registry)
    (hist : List HistRow) (store : ScheduleStore) (userId : Nat)
    (tgt : Target) (url : String) (now dur : Int) :
    ((displayNow registry hist store userId tgt url now dur).2.2.2 =
        false ↔ resolveTargets registry userId tgt = []) ∧
    (resolveTargets registry userId tgt = [] →
      displayNow registry hist store userId tgt url now dur =
        ([], hist, store, false)) := by
  simp only [displayNow]
  split
  next h =>
    exact ⟨⟨fun _ => List.length_eq_zero.mp h, fun _ => rfl⟩,
      fun _ => rfl⟩
  next h =>
    have hne : resolveTargets registry userId tgt ≠ [] := by
      intro hnil
      exact h (by rw [hnil]; rfl)
    exact ⟨⟨fun hf => absurd hf (by simp), fun hnil => absurd hnil hne⟩,
      fun hnil => absurd hnil hne⟩

/-- Witness for **C6**: owner 7 with an empty Connection Registry and no
target device — the request fails and history and store are returned
unchanged. -/
theorem display_now_requires_connected_display_witness :
    displayNow [] [] ⟨[], 0⟩ 7 Target.allOwned "img" 0 60000 =
      ([], [], ⟨[], 0⟩, false) :=
  (display_now_requires_connected_display [] [] ⟨[], 0⟩ 7 Target.allOwned
    "img" 0 60000).2 (by decide)

/-! ### Live sessions (`src/liveSessionDb.js`) -/

/-- Live-session lifecycle status (`live_sessions.status`), per the source:
`'active'` at creation, `'ended'` after `endSession`. -/
inductive SessStatus where
  | active
  | ended
deriving DecidableEq, Repr

/-- A `live_sessions` row with the fields `endSession` touches. -/
structure LiveSession where
  id : Nat
  userId : Nat
  title : String
  emergency : Bool
  status : SessStatus
  endedAt : Option Int
deriving DecidableEq, Repr

/-- A `live_session_viewers` row: `left_at IS NULL` means still watching. -/
structure Viewer where
  sessionId : Nat
  displayId : Nat
  joinedAt : Int
  leftAt : Option Int
deriving DecidableEq, Repr

/-- A `live_session_events` row. -/
structure SessionEvent where
  sessionId : Nat
  eventType : String
deriving DecidableEq, Repr

/-- The durable live-session store: sessions, viewers, append-only events. -/
structure LiveDb where
  sessions : List LiveSession
  viewers : List Viewer
  events : List SessionEvent
deriving DecidableEq, Repr

/-- `liveSessionDb.endSession` (`src/liveSessionDb.js`, lines 59–102), one
transaction: `UPDATE live_sessions SET ended_at = NOW(), status = 'ended'
WHERE id = $1 AND status = 'active' RETURNING *`; when zero rows return,
throw (the `ROLLBACK` leaves the store untouched); otherwise
`UPDATE live_session_viewers SET left_at = NOW() WHERE session_id = $1 AND
left_at IS NULL`, `INSERT INTO live_session_events … 'ended'`, `COMMIT`. -/
def endSession (db : LiveDb) (now : Int) (sid : Nat) :
    Except String (LiveDb × LiveSession) :=
  let returned := (db.sessions.filter fun s =>
      s.id = sid && s.status = SessStatus.active).map fun s =>
    { s with status := SessStatus.ended, endedAt := some now }
  match returned with
  | [] => Except.error "Session not found or already ended"
  | r :: _ =>
    Except.ok
      ({ sessions := db.sessions.map fun s =>
            if s.id = sid && s.status = SessStatus.active then
              { s with status := SessStatus.ended, endedAt := some now }
            else s,
         viewers := db.viewers.map fun v =>
            if v.sessionId = sid && v.leftAt = none then
              { v with leftAt := some now }
            else v,
         events := db.events ++ [⟨sid, "ended"⟩] }, r)

/-- The store an `endSession` caller observes afterwards: the committed
store on success, the rolled-back (unchanged) store on error. -/
def endSessionRun (db : LiveDb) (now : Int) (sid : Nat) : LiveDb :=
  match endSession db now sid with
  | Except.error _ => db
  | Except.ok (db', _) => db'

/-- **C9.** Ending a live session is atomic: when no `active` session with
the given id exists, `endSession` fails and the store is unchanged; when
one exists, it succeeds and, in the single committed result, the active
session row is `ended` with end timestamp `now`, every still-open viewer
row of that session gets leave timestamp `now` (other viewer rows are
untouched), and the `'ended'` event is appended. -/
theorem endSession_atomic (db : LiveDb) (now : Int) (sid : Nat) :
    ((¬ ∃ s ∈ db.sessions, s.id = sid ∧ s.status = SessStatus.active) →
      (∃ msg, endSession db now sid = Except.error msg) ∧
      endSessionRun db now sid = db) ∧
    ((∃ s ∈ db.sessions, s.id = sid ∧ s.status = SessStatus.active) →
      ∃ db' r, endSession db now sid = Except.ok (db', r) ∧
        r.status = SessStatus.ended ∧ r.endedAt = some now ∧
        (∀ s ∈ db.sessions, s.id = sid → s.status = SessStatus.active →
          { s with status := SessStatus.ended, endedAt := some now } ∈
            db'.sessions) ∧
        (∀ v ∈ db.viewers, v.sessionId = sid → v.leftAt = none →
          { v with leftAt := some now } ∈ db'.viewers) ∧
        (∀ v ∈ db.viewers, v.sessionId ≠ sid ∨ v.leftAt ≠ none →
          v ∈ db'.viewers) ∧
        db'.events = db.events ++ [⟨sid, "ended"⟩] ∧
        endSessionRun db now sid = db') := by
  constructor
  · intro hno
    have hfilter : db.sessions.filter (fun s =>
        s.id = sid && s.status = SessStatus.active) = [] := by
      refine List.filter_eq_nil_iff.mpr fun s hs hcond => ?_
      simp only [Bool.and_eq_true, decide_eq_true_eq] at hcond
      exact hno ⟨s, hs, hcond.1, hcond.2⟩
    have herr : endSession db now sid =
        Except.error "Session not found or already ended" := by
      unfold endSession
      rw [hfilter]
      rfl
    exact ⟨⟨_, herr⟩, by unfold endSessionRun; rw [herr]⟩
  · rintro ⟨s, hs, hsid, hact⟩
    have hmemf : s ∈ db.sessions.filter (fun s =>
        s.id = sid && s.status = SessStatus.active) :=
      List.mem_filter.mpr ⟨hs, by simp [hsid, hact]⟩
    have hne : (db.sessions.filter (fun s =>
        s.id = sid && s.status = SessStatus.active)).map (fun s =>
      { s with status := SessStatus.ended, endedAt := some now }) ≠ [] := by
      intro hnil
      rw [List.map_eq_nil_iff] at hnil
      rw [hnil] at hmemf
      exact List.not_mem_nil s hmemf
    obtain ⟨r, rest, hr⟩ := List.exists_cons_of_ne_nil hne
    have hrployed : r ∈ (db.sessions.filter (fun s =>
        s.id = sid && s.status = SessStatus.active)).map (fun s =>
      { s with status := SessStatus.ended, endedAt := some now }) := by
      rw [hr]
      exact List.mem_cons_self r rest
    rcases List.mem_map.mp hrployed with ⟨s0, _, hs0⟩
    have hok : endSession db now sid = Except.ok
        ({ sessions := db.sessions.map fun s =>
              if s.id = sid && s.status = SessStatus.active then
                { s with status := SessStatus.ended, endedAt := some now }
              else s,
           viewers := db.viewers.map fun v =>
              if v.sessionId = sid && v.leftAt = none then
                { v with leftAt := some now }
              else v,
           events := db.events ++ [⟨sid, "ended"⟩] }, r) := by
      unfold endSession
      rw [hr]
    refine ⟨_, r, hok, ?_, ?_, ?_, ?_, ?_, rfl, ?_⟩
    · rw [← hs0]
    · rw [← hs0]
    · intro s' hs' hsid' hact'
      refine List.mem_map.mpr ⟨s', hs', ?_⟩
      rw [if_pos (by simp [hsid', hact'])]
    · intro v hv hvs hvl
      refine List.mem_map.mpr ⟨v, hv, ?_⟩
      rw [if_pos (by simp [hvs, hvl])]
    · intro v hv hcond
      refine List.mem_map.mpr ⟨v, hv, ?_⟩
      rw [if_neg ?_]
      simp only [Bool.and_eq_true, decide_eq_true_eq, not_and]
      intro hvs
      rcases hcond with h | h
      · exact absurd hvs h
      · exact h
    · unfold endSessionRun
      rw [hok]

/-- Witness for **C9**: a store with one active session (id 4) and one open
viewer — `endSession` succeeds and the committed store has the session
ended at time 50, the viewer marked left at 50, and the `'ended'` event
appended. -/
theorem endSession_atomic_witness :
    ∃ db' r, endSession
        ⟨[⟨4, 7, "t", false, SessStatus.active, none⟩],
         [⟨4, 9, 10, none⟩], []⟩ 50 4 = Except.ok (db', r) ∧
      r.status = SessStatus.ended ∧ r.endedAt = some (50 : Int) ∧
      (∀ s ∈ [(⟨4, 7, "t", false, SessStatus.active, none⟩ : LiveSession)],
        s.id = 4 → s.status = SessStatus.active →
        { s with status := SessStatus.ended, endedAt := some (50 : Int) } ∈
          db'.sessions) ∧
      (∀ v ∈ [(⟨4, 9, 10, none⟩ : Viewer)], v.sessionId = 4 →
        v.leftAt = none →
        { v with leftAt := some (50 : Int) } ∈ db'.viewers) ∧
      (∀ v ∈ [(⟨4, 9, 10, none⟩ : Viewer)],
        v.sessionId ≠ 4 ∨ v.leftAt ≠ none → v ∈ db'.viewers) ∧
      db'.events = [] ++ [⟨4, "ended"⟩] ∧
      endSessionRun
        ⟨[⟨4, 7, "t", false, SessStatus.active, none⟩],
         [⟨4, 9, 10, none⟩], []⟩ 50 4 = db' :=
  (endSession_atomic
    ⟨[⟨4, 7, "t", false, SessStatus.active, none⟩],
     [⟨4, 9, 10, none⟩], []⟩ 50 4).2
    ⟨⟨4, 7, "t", false, SessStatus.active, none⟩, by simp, rfl, rfl⟩

end Signage
